import Mathlib

/-!
Verification development for the rust-peer particle node.

The developments below shallowly embed the particle-builtins dispatch code
(`src/particle-builtins/src/builtins.rs`) and — for components whose source
modules are declared but not shipped (the aquamarine Plumber / Actor
scheduler) — a model built from the specification's description of their
operations.  Machine integers are modelled with `Nat`/`Int`, JSON values by
an inductive type, fallible Rust functions by `Except`/`Option`, and the
external effectful collaborators (Kademlia, connection pool, application
services, the keypair and the base58/sha256 codecs) by abstract function
fields of the `Builtins` structure.
-/

namespace RustPeer

/-- Shallow embedding of `serde_json::Value`.  JSON numbers are modelled as
integers (`Int`), which covers all values the verified builtins inspect. -/
inductive JValue where
  | null : JValue
  | bool (b : Bool) : JValue
  | num (n : Int) : JValue
  | str (s : String) : JValue
  | arr (xs : List JValue) : JValue
  | obj (kvs : List (String × JValue)) : JValue

/-- Errors (`JError` in the source) are modelled by their message. -/
abbrev JError := String

/-- `SecurityTetraplet`: provenance of one argument value. -/
structure Tetraplet where
  peer_pk : String
  service_id : String
  function_name : String
  json_path : String
deriving Repr, DecidableEq

/-- `particle_args::Args`: a host-call request. -/
structure Args where
  service_id : String
  function_name : String
  function_args : List JValue
  tetraplets : List (List Tetraplet)

/-- `particle_execution::ParticleParams` (the fields builtins consult). -/
structure ParticleParams where
  id : String
  init_peer_id : String
  timestamp : Nat
  ttl : Nat
deriving Repr, DecidableEq

/-- `particle_execution::FunctionOutcome`. -/
inductive FunctionOutcome where
  | Ok (v : JValue) : FunctionOutcome
  | Empty : FunctionOutcome
  | Err (e : JError) : FunctionOutcome
  | NotDefined (args : Args) (params : ParticleParams) : FunctionOutcome

/-- `FunctionOutcome::or_else`: chain-of-responsibility combinator — a
`NotDefined` outcome is retried with the fallback handler. -/
def FunctionOutcome.or_else (o : FunctionOutcome)
    (f : Args → ParticleParams → FunctionOutcome) : FunctionOutcome :=
  match o with
  | .NotDefined args params => f args params
  | r => r

/-- `crate::outcome::wrap`: lift a `Result<JValue, JError>` into an outcome. -/
def wrap (r : Except JError JValue) : FunctionOutcome :=
  match r with
  | .ok v => .Ok v
  | .error e => .Err e

/-- `crate::outcome::ok`. -/
def ok (v : JValue) : FunctionOutcome := .Ok v

/-- `serde_json::Value::as_u64`: the number viewed as a `u64`, when it is a
non-negative integer below `2^64`. -/
def JValue.as_u64 (v : JValue) : Option Nat :=
  match v with
  | .num n => if 0 ≤ n ∧ n < (2 : Int) ^ 64 then some n.toNat else none
  | _ => none

/-- `Builtins::identity` (`builtins.rs:538`): rejects more than one argument,
returns the single argument unchanged, is `Empty` on an empty argument list
(via `Try::from_output` on `Option<JValue>`). -/
def identity (args : List JValue) : FunctionOutcome :=
  if args.length > 1 then
    .Err "identity accepts up to 1 arguments"
  else
    match args.head? with
    | some v => .Ok v
    | none => .Empty

/-- `Builtins::array_slice` (`builtins.rs:611`): takes `[array, start, end]`;
an empty array short-circuits to `Ok([])` before the index checks. -/
def array_slice (args : List JValue) : Except JError JValue :=
  match args with
  | [array, start, stop] =>
    match array with
    | .arr a =>
      if a.isEmpty then .ok (.arr []) else
      match start.as_u64 with
      | none => .error "second argument (start index) must be an unsigned integer"
      | some s =>
        match stop.as_u64 with
        | none => .error "third argument (end index) must be an unsigned integer"
        | some e =>
          if s > e ∨ e > a.length then
            .error "slice indexes out of bounds"
          else
            .ok (.arr ((a.drop s).take (e - s)))
    | _ => .error "first argument must be an array"
  | _ => .error "invalid number of parameters. need array, start index and end index"

/-- Byte strings are lists of naturals. -/
abbrev Bytes := List Nat

/-- `Builtins::array_length` (`builtins.rs:598`). -/
def array_length (args : List JValue) : Except JError JValue :=
  match args with
  | [.arr a] => .ok (.num a.length)
  | [_] => .error "op array_length's argument must be an array"
  | _ => .error "op array_length accepts exactly 1 argument"

/-- `libp2p::kad::kbucket::Key`: a preimage with its SHA-256 identity; key
equality in libp2p compares the hashes. The 256-bit hash is modelled by a
natural number so that XOR distance is `Nat.xor`. -/
structure KadKey where
  preimage : Bytes
  hash : Nat
deriving Repr, DecidableEq

/-- `Key::distance`: XOR metric between key hashes. -/
def kad_distance (a b : KadKey) : Nat := a.hash ^^^ b.hash

/-- `K_VALUE` of libp2p Kademlia. -/
def K_VALUE : Nat := 20

/-- A `ServiceFunction` closure. -/
abbrev ServiceFunction := Args → ParticleParams → FunctionOutcome

/-- `CustomService` (`builtins.rs:59`). -/
structure CustomService where
  functions : List (String × ServiceFunction)
  unhandled : Option ServiceFunction

/-- The `Builtins` host-function dispatcher (`builtins.rs:68`).  External
collaborators that live outside `particle-builtins` (the keypair, base58 and
SHA-256 codecs, the application-service registry, and the effectful builtins
backed by Kademlia / connection pool / module repository / script storage)
are abstract function fields. -/
structure Builtins where
  local_peer_id : String
  particles_vault_dir : List String
  custom_services : List (String × CustomService)
  services_call : Args → ParticleParams → FunctionOutcome
  root_sign : Bytes → Except JError Bytes
  b58decode : String → Option Bytes
  b58encode : Bytes → String
  sha256 : Bytes → Nat
  ext : String → String → Args → ParticleParams → FunctionOutcome

/-- `particle_args::Args::next(field)`: pop the next argument and decode it;
errs when the argument list is exhausted or the value does not decode. -/
def argNext {α : Type} (decode : JValue → Option α) (args : List JValue) :
    Except JError (α × List JValue) :=
  match args with
  | [] => .error "missing field"
  | v :: rest =>
    match decode v with
    | some a => .ok (a, rest)
    | none => .error "failed to deserialize field"

/-- `particle_args::Args::next_opt(field)`: like `Args::next` but an
exhausted argument list yields `None` instead of an error. -/
def argNextOpt {α : Type} (decode : JValue → Option α) (args : List JValue) :
    Except JError (Option α × List JValue) :=
  match args with
  | [] => .ok (none, [])
  | v :: rest =>
    match decode v with
    | some a => .ok (some a, rest)
    | none => .error "failed to deserialize field"

/-- Deserializing a `String` from JSON. -/
def JValue.asString : JValue → Option String
  | .str s => some s
  | _ => none

/-- Deserializing a `Vec<String>` from JSON. -/
def JValue.asStringList : JValue → Option (List String)
  | .arr xs => xs.mapM JValue.asString
  | _ => none

/-- Deserializing one byte (`u8`) from JSON. -/
def JValue.asByte : JValue → Option Nat
  | .num n => if 0 ≤ n ∧ n < 256 then some n.toNat else none
  | _ => none

/-- Deserializing a `Vec<u8>` from JSON. -/
def JValue.asBytes : JValue → Option Bytes
  | .arr xs => xs.mapM JValue.asByte
  | _ => none

/-- A byte string rendered back to JSON. -/
def bytesToJ (bs : Bytes) : JValue := .arr (bs.map fun n => .num (Int.ofNat n))

/-- `Key::from(Vec<u8>)`: hash the preimage. -/
def mkKey (b : Builtins) (bytes : Bytes) : KadKey := ⟨bytes, b.sha256 bytes⟩

/-- Base58-decode every element, left to right, failing on the first
undecodable element (the `collect::<Result<...>>` in `kad_merge`). -/
def decodeKeys (b : Builtins) : List String → Except JError (List KadKey)
  | [] => .ok []
  | s :: rest =>
    match b.b58decode s with
    | none => .error "base58 decode error"
    | some bytes => (decodeKeys b rest).map (fun ks => mkKey b bytes :: ks)

/-- `Vec::dedup` on keys: drop adjacent duplicates (libp2p key equality,
i.e. equal hashes), keeping the first of each run. -/
def kadDedup : List KadKey → List KadKey
  | [] => []
  | [a] => [a]
  | a :: c :: rest =>
    if a.hash = c.hash then kadDedup (a :: rest)
    else a :: kadDedup (c :: rest)
termination_by l => l.length

/-- `Builtins::kad_merge` (`builtins.rs:505`): decode target and both lists
from base58, sort stably by XOR distance to the target (`sort_by_cached_key`
is a stable sort, embedded as insertion sort), drop adjacent duplicates and
return the first `count` (default `K_VALUE`) re-encoded preimages. -/
def kad_merge (b : Builtins) (args : List JValue) : Except JError JValue := do
  let (target, args) ← argNext JValue.asString args
  let (left, args) ← argNext JValue.asStringList args
  let (right, args) ← argNext JValue.asStringList args
  let (countO, _) ← argNextOpt JValue.as_u64 args
  let count := countO.getD K_VALUE
  let targetBytes ←
    match b.b58decode target with
    | some v => Except.ok v
    | none => Except.error "base58 decode error"
  let targetKey := mkKey b targetBytes
  let keys ← decodeKeys b (left ++ right)
  let keys := List.insertionSort
    (fun x y => kad_distance targetKey x ≤ kad_distance targetKey y) keys
  let keys := kadDedup keys
  let keys := (keys.map (fun k => JValue.str (b.b58encode k.preimage))).take count
  Except.ok (JValue.arr keys)

/-- The JSON object `sign` replies with. -/
def signResponse (success : Bool) (errs : List JValue) (sigs : List JValue) : JValue :=
  .obj [("success", .bool success), ("error", .arr errs), ("signature", .arr sigs)]

/-- `Builtins::sign` (`builtins.rs:863`).  A failing decode of `data` (and a
failing keypair signature) lands in the `try` block's result and is rendered
as an `Ok` reply with `success = false`; the tetraplet checks instead use
early `return Err(...)`, which exits the whole function with an error. -/
def Builtins.sign (b : Builtins) (args : Args) : Except JError JValue :=
  match argNext JValue.asBytes args.function_args with
  | .error e => .ok (signResponse false [.str e] [])
  | .ok (data, _) =>
    match args.tetraplets.head? with
    | some [t] =>
      if t.peer_pk ≠ b.local_peer_id then
        .error "data is expected to be produced by service 'registry' on the local peer"
      else if (t.service_id, t.function_name) ≠ ("registry", "get_record_bytes") then
        .error "data is expected to result from a call to 'registry.get_record_bytes'"
      else if t.json_path ≠ "" then
        .error "json_path for data tetraplet is expected to be empty"
      else
        match b.root_sign data with
        | .error e => .ok (signResponse false [.str e] [])
        | .ok sig => .ok (signResponse true [] [bytesToJ sig])
    | _ => .error "expected tetraplet for a scalar argument"

/-- Assoc-list lookup, standing in for `HashMap::get`. -/
def lookupAssoc {α : Type} (m : List (String × α)) (k : String) : Option α :=
  match m with
  | [] => none
  | (k', v) :: rest => if k' = k then some v else lookupAssoc rest k

/-- `Builtins::custom_service_call` (`builtins.rs:148`): look the service up
by id, then the function by name, falling back to the service's `unhandled`
handler; when nothing is registered the call stays `NotDefined`. -/
def Builtins.custom_service_call (b : Builtins) (args : Args)
    (particle : ParticleParams) : FunctionOutcome :=
  match lookupAssoc b.custom_services args.service_id with
  | none => .NotDefined args particle
  | some fs =>
    match lookupAssoc fs.functions args.function_name with
    | some f => f args particle
    | none =>
      match fs.unhandled with
      | some f => f args particle
      | none => .NotDefined args particle

/-- `Builtins::call_service` (`builtins.rs:801`): delegate to the
application-service registry. -/
def Builtins.call_service (b : Builtins) (args : Args)
    (particle : ParticleParams) : FunctionOutcome :=
  b.services_call args particle

/-- `Builtins::builtins_call` (`builtins.rs:170`): resolve the request by the
`(service_id, function_name)` pair.  The arms verified elsewhere in this file
are embedded concretely; the remaining arms call effectful collaborators
outside `particle-builtins` and are routed to the abstract field `ext`,
keeping the exact set of matched pairs.  Unmatched pairs are `NotDefined`. -/
def Builtins.builtins_call (b : Builtins) (args : Args)
    (particle : ParticleParams) : FunctionOutcome :=
  match args.service_id, args.function_name with
  | "peer", "identify" => b.ext "peer" "identify" args particle
  | "peer", "timestamp_ms" => b.ext "peer" "timestamp_ms" args particle
  | "peer", "timestamp_sec" => b.ext "peer" "timestamp_sec" args particle
  | "peer", "is_connected" => b.ext "peer" "is_connected" args particle
  | "peer", "connect" => b.ext "peer" "connect" args particle
  | "peer", "get_contact" => b.ext "peer" "get_contact" args particle
  | "peer", "timeout" => b.ext "peer" "timeout" args particle
  | "kad", "neighborhood" => b.ext "kad" "neighborhood" args particle
  | "kad", "neigh_with_addrs" => b.ext "kad" "neigh_with_addrs" args particle
  | "kad", "merge" => wrap (kad_merge b args.function_args)
  | "srv", "list" => b.ext "srv" "list" args particle
  | "srv", "create" => b.ext "srv" "create" args particle
  | "srv", "get_interface" => b.ext "srv" "get_interface" args particle
  | "srv", "resolve_alias" => b.ext "srv" "resolve_alias" args particle
  | "srv", "add_alias" => b.ext "srv" "add_alias" args particle
  | "srv", "remove" => b.ext "srv" "remove" args particle
  | "dist", "add_module_from_vault" => b.ext "dist" "add_module_from_vault" args particle
  | "dist", "add_module" => b.ext "dist" "add_module" args particle
  | "dist", "add_blueprint" => b.ext "dist" "add_blueprint" args particle
  | "dist", "make_module_config" => b.ext "dist" "make_module_config" args particle
  | "dist", "load_module_config" => b.ext "dist" "load_module_config" args particle
  | "dist", "default_module_config" => b.ext "dist" "default_module_config" args particle
  | "dist", "make_blueprint" => b.ext "dist" "make_blueprint" args particle
  | "dist", "load_blueprint" => b.ext "dist" "load_blueprint" args particle
  | "dist", "list_modules" => b.ext "dist" "list_modules" args particle
  | "dist", "get_module_interface" => b.ext "dist" "get_module_interface" args particle
  | "dist", "list_blueprints" => b.ext "dist" "list_blueprints" args particle
  | "script", "add" => b.ext "script" "add" args particle
  | "script", "add_from_vault" => b.ext "script" "add_from_vault" args particle
  | "script", "remove" => b.ext "script" "remove" args particle
  | "script", "list" => b.ext "script" "list" args particle
  | "op", "noop" => FunctionOutcome.Empty
  | "op", "array" => ok (.arr args.function_args)
  | "op", "array_length" => wrap (array_length args.function_args)
  | "op", "concat" => b.ext "op" "concat" args particle
  | "op", "string_to_b58" => b.ext "op" "string_to_b58" args particle
  | "op", "string_from_b58" => b.ext "op" "string_from_b58" args particle
  | "op", "bytes_from_b58" => b.ext "op" "bytes_from_b58" args particle
  | "op", "bytes_to_b58" => b.ext "op" "bytes_to_b58" args particle
  | "op", "sha256_string" => b.ext "op" "sha256_string" args particle
  | "op", "concat_strings" => b.ext "op" "concat_strings" args particle
  | "op", "identity" => identity args.function_args
  | "debug", "stringify" => b.ext "debug" "stringify" args particle
  | "stat", "service_memory" => b.ext "stat" "service_memory" args particle
  | "stat", "service_stat" => b.ext "stat" "service_stat" args particle
  | "math", "add" => b.ext "math" "add" args particle
  | "math", "sub" => b.ext "math" "sub" args particle
  | "math", "mul" => b.ext "math" "mul" args particle
  | "math", "fmul" => b.ext "math" "fmul" args particle
  | "math", "div" => b.ext "math" "div" args particle
  | "math", "rem" => b.ext "math" "rem" args particle
  | "math", "pow" => b.ext "math" "pow" args particle
  | "math", "log" => b.ext "math" "log" args particle
  | "cmp", "gt" => b.ext "cmp" "gt" args particle
  | "cmp", "gte" => b.ext "cmp" "gte" args particle
  | "cmp", "lt" => b.ext "cmp" "lt" args particle
  | "cmp", "lte" => b.ext "cmp" "lte" args particle
  | "cmp", "cmp" => b.ext "cmp" "cmp" args particle
  | "array", "sum" => b.ext "array" "sum" args particle
  | "array", "dedup" => b.ext "array" "dedup" args particle
  | "array", "intersect" => b.ext "array" "intersect" args particle
  | "array", "diff" => b.ext "array" "diff" args particle
  | "array", "sdiff" => b.ext "array" "sdiff" args particle
  | "array", "slice" => wrap (array_slice args.function_args)
  | "array", "length" => wrap (array_length args.function_args)
  | "sig", "sign" => wrap (b.sign args)
  | "sig", "verify" => b.ext "sig" "verify" args particle
  | "sig", "get_peer_id" => b.ext "sig" "get_peer_id" args particle
  | "json", "obj" => b.ext "json" "obj" args particle
  | "json", "put" => b.ext "json" "put" args particle
  | "json", "puts" => b.ext "json" "puts" args particle
  | "json", "parse" => b.ext "json" "parse" args particle
  | "json", "stringify" => b.ext "json" "stringify" args particle
  | _, _ => .NotDefined args particle

/-- `Builtins::call` (`builtins.rs:131`): try the builtins first; a
`NotDefined` outcome is retried against the custom-service registry and then
against the application services. -/
def Builtins.call (b : Builtins) (args : Args) (particle : ParticleParams) :
    FunctionOutcome :=
  match b.builtins_call args particle with
  | .NotDefined args params =>
    (b.custom_service_call args params).or_else b.call_service
  | result => result

/-! ### Vault path resolution -/

/-- Filesystem paths, as their component lists (how `std::path::Path`
compares prefixes). -/
abbrev FsPath := List String

/-- `ResolveVaultError` (`builtins.rs:1032`). -/
inductive ResolveVaultError where
  | WrongVault (p : FsPath) (base : FsPath)
  | NotFound (p : FsPath)
deriving Repr, DecidableEq

/-- `Path::strip_prefix` over components. -/
def stripComponents (base p : FsPath) : Option FsPath :=
  match base, p with
  | [], rest => some rest
  | _ :: _, [] => none
  | b :: bs, c :: cs => if b = c then stripComponents bs cs else none

/-- `resolve_vault_path` (`builtins.rs:1045`).  `canon` models
`Path::canonicalize` — resolution against the real file system (symlinks,
`..`, existence), with `none` meaning the path does not exist.  The virtual
vault root (`VIRTUAL_PARTICLE_VAULT_PREFIX`, defined in the external
`particle-services` crate) is passed as a parameter. -/
def resolve_vault_path (canon : FsPath → Option FsPath) (virtualRoot : FsPath)
    (particles_vault_dir : FsPath) (path : FsPath) (particle_id : String) :
    Except ResolveVaultError FsPath :=
  let virtualBase := virtualRoot ++ [particle_id]
  let realBase := particles_vault_dir ++ [particle_id]
  match stripComponents virtualBase path with
  | none => .error (.WrongVault path virtualBase)
  | some rest =>
    match canon (realBase ++ rest) with
    | none => .error (.NotFound path)
    | some resolved =>
      if realBase.isPrefixOf resolved then .ok resolved
      else .error (.WrongVault resolved realBase)

/-! ### The Plumber / Actor scheduler

The aquamarine modules `plumber.rs`, `actor.rs` and `deadline.rs` are
declared in `src/aquamarine/src/lib.rs` but their sources are not part of
this tree.  The scheduler below is modelled from the specification
(data model §3; Plumber operations §4.1; Actor coalescing §4.2). -/

/-- Modelled from the spec (§3): a particle; `deadline = timestamp + ttl`.
(The aquamarine `Particle` type is not under `src/`.) -/
structure Particle where
  id : String
  timestamp : Nat
  ttl : Nat
  script : String
  data : Bytes
deriving Repr, DecidableEq

/-- `deadline = timestamp + ttl` (§3). -/
def Particle.deadline (p : Particle) : Nat := p.timestamp + p.ttl

/-- `ActorKey = (particle_id, receiving_peer_id)` (§3). -/
abbrev ActorKey := String × String

/-- The key a particle lands on at a given receiving peer. -/
def Particle.key (p : Particle) (peer : String) : ActorKey := (p.id, peer)

/-- Modelled from the spec (§3): per-key actor state.  (`actor.rs` is not
under `src/`.) -/
structure Actor where
  deadline : Nat
  queue : List Particle
  busy : Bool
  last_activity : Nat
deriving Repr, DecidableEq

/-- Modelled from the spec (§4.1): the Plumber keeps a mapping
`ActorKey → Actor`; `inflight` books the interpreter invocations that have
been started by `poll` and not yet finished by `complete` — `poll` is the
only operation that starts an invocation and `complete` the only one that
ends one.  (`plumber.rs` is not under `src/`.) -/
structure Plumber where
  peer_id : String
  limit : Nat
  actors : List (ActorKey × Actor)
  inflight : List ActorKey
deriving Repr, DecidableEq

/-- Lookup in the actor map. -/
def lookupActor (k : ActorKey) : List (ActorKey × Actor) → Option Actor
  | [] => none
  | (k', a) :: rest => if k' = k then some a else lookupActor k rest

/-- Rewrite the entry of key `k` in place. -/
def updateActor (k : ActorKey) (f : Actor → Actor) :
    List (ActorKey × Actor) → List (ActorKey × Actor)
  | [] => []
  | (k', a) :: rest =>
    if k' = k then (k', f a) :: rest else (k', a) :: updateActor k f rest

/-- Remove the entry of key `k`. -/
def removeActor (k : ActorKey) : List (ActorKey × Actor) → List (ActorKey × Actor)
  | [] => []
  | (k', a) :: rest => if k' = k then rest else (k', a) :: removeActor k rest

/-- Drop the first occurrence of `k`. -/
def eraseKey (k : ActorKey) : List ActorKey → List ActorKey
  | [] => []
  | k' :: rest => if k' = k then rest else k' :: eraseKey k rest

/-- Total number of queued particles (for the global admission limit). -/
def totalQueued (s : Plumber) : Nat :=
  (s.actors.map (fun ka => ka.2.queue.length)).sum

/-- Result of `ingest` (§4.1). -/
inductive IngestResult where
  | Ok
  | Rejected (reason : String)
deriving Repr, DecidableEq

/-- Modelled from the spec (§4.1): `ingest(particle)` rejects a particle
that is expired on arrival (`now ≥ deadline`) or over the global admission
limit; otherwise it enqueues on the appropriate Actor, creating it on first
arrival (deadline copied from the first particle seen, `busy = false`). -/
def ingest (now : Nat) (p : Particle) (s : Plumber) : IngestResult × Plumber :=
  if p.deadline ≤ now then (.Rejected "expired", s)
  else if s.limit ≤ totalQueued s then (.Rejected "admission limit reached", s)
  else
    let k := p.key s.peer_id
    match lookupActor k s.actors with
    | some _ =>
      let push := fun a =>
        { a with queue := a.queue ++ [p], last_activity := now }
      (.Ok, { s with actors := updateActor k push s.actors })
    | none =>
      let fresh : Actor :=
        { deadline := p.deadline, queue := [p], busy := false, last_activity := now }
      (.Ok, { s with actors := s.actors ++ [(k, fresh)] })

/-- Modelled from the spec (§4.1): `gc(now)` removes expired actors
(`deadline < now`); per the Actor destruction invariant (§3) an actor is
only destroyed while not busy. -/
def gc (now : Nat) (s : Plumber) : Plumber :=
  let keep := fun (ka : ActorKey × Actor) => ka.2.busy || decide (now ≤ ka.2.deadline)
  { s with actors := s.actors.filter keep }

/-- Modelled from the spec (§4.2): a single invocation consumes all queued
particles; they are merged with the latest arrival's data superseding. -/
def mergeParticles (p : Particle) (rest : List Particle) : Particle :=
  rest.foldl (fun acc q => { acc with data := q.data }) p

/-- Merge a whole non-empty queue. -/
def mergeQueue : List Particle → Option Particle
  | [] => none
  | p :: rest => some (mergeParticles p rest)

/-- One dispatched interpreter invocation. -/
structure Execution where
  key : ActorKey
  particle : Particle
deriving Repr, DecidableEq

/-- Modelled from the spec (§4.1): ready means not busy, non-empty queue,
and the particle about to be handed to the Executor passes the pre-dispatch
deadline check (`now < deadline`). -/
def readyActor (now : Nat) (a : Actor) : Bool :=
  !a.busy &&
    match a.queue with
    | [] => false
    | p :: _ => decide (now < p.deadline)

/-- Modelled from the spec (§4.1): `poll(now)` runs `gc` opportunistically,
returns one execution per ready actor (consuming its whole queue), and marks
each returned actor busy. -/
def poll (now : Nat) (s : Plumber) : List Execution × Plumber :=
  let s := gc now s
  let ready := s.actors.filter (fun ka => readyActor now ka.2)
  let execs := ready.filterMap
    (fun ka => (mergeQueue ka.2.queue).map (fun p => Execution.mk ka.1 p))
  let actors := s.actors.map
    (fun ka => (ka.1, if readyActor now ka.2 then
        { ka.2 with busy := true, queue := [] } else ka.2))
  (execs, { s with actors := actors, inflight := s.inflight ++ execs.map Execution.key })

/-- Modelled from the spec (§4.1): `complete(key)` clears `busy` and drops
the actor when its queue is empty. -/
def complete (now : Nat) (k : ActorKey) (s : Plumber) : Plumber :=
  match lookupActor k s.actors with
  | none => s
  | some a =>
    if a.busy then
      { s with
        actors :=
          if a.queue.isEmpty then removeActor k s.actors
          else updateActor k
            (fun a => { a with busy := false, last_activity := now }) s.actors,
        inflight := eraseKey k s.inflight }
    else s

/-- The Plumber of a fresh node: no actors, nothing in flight. -/
def initPlumber (peer : String) (limit : Nat) : Plumber :=
  { peer_id := peer, limit := limit, actors := [], inflight := [] }

/-- One scheduler operation (§4.1). -/
inductive Step : Plumber → Plumber → Prop where
  | ingest (now : Nat) (p : Particle) (s : Plumber) : Step s (ingest now p s).2
  | poll (now : Nat) (s : Plumber) : Step s (poll now s).2
  | complete (now : Nat) (k : ActorKey) (s : Plumber) : Step s (complete now k s)
  | gc (now : Nat) (s : Plumber) : Step s (gc now s)

/-- States reachable from a fresh Plumber by scheduler operations. -/
inductive Reachable : Plumber → Prop where
  | init (peer : String) (limit : Nat) : Reachable (initPlumber peer limit)
  | step {s t : Plumber} : Reachable s → Step s t → Reachable t

/-- The inductive invariant: actor keys are unique, the in-flight book has
no duplicates, and a key is in flight exactly when its actor is busy. -/
def PlumberInv (s : Plumber) : Prop :=
  (s.actors.map Prod.fst).Nodup ∧ s.inflight.Nodup ∧
  (∀ k, k ∈ s.inflight ↔ ∃ a, lookupActor k s.actors = some a ∧ a.busy = true)

/-! ### Concrete fixtures used by witnesses and counterexamples -/

/-- An external-builtin handler that answers every call with `Empty`. -/
def extEmpty : String → String → Args → ParticleParams → FunctionOutcome :=
  fun _ _ _ _ => .Empty

/-- Some particle parameters. -/
def paramsFix : ParticleParams :=
  { id := "particle-0", init_peer_id := "init-peer", timestamp := 0, ttl := 1000 }

/-- A custom service with one function `f` and an `unhandled` fallback. -/
def customFix : CustomService :=
  { functions := [("f", fun _ _ => .Ok (.num 42))]
    unhandled := some (fun _ _ => .Ok (.num 7)) }

/-- A concrete `Builtins` value: identity-ish codecs, a registry holding one
custom service, and an application-service registry answering `99`. -/
def builtinsFix : Builtins :=
  { local_peer_id := "local-peer"
    particles_vault_dir := ["data", "vault"]
    custom_services := [("mysrv", customFix)]
    services_call := fun _ _ => .Ok (.num 99)
    root_sign := fun d => .ok d
    b58decode := fun s => some (s.toList.map Char.toNat)
    b58encode := fun bs => String.mk (bs.map Char.ofNat)
    sha256 := fun bs => bs.foldl (fun h x => h * 256 + x) 1
    ext := extEmpty }

/-- A sign request whose data tetraplet names a foreign peer. -/
def signArgsWrongPeer : Args :=
  Args.mk "sig" "sign" [.arr []]
    [[Tetraplet.mk "other-peer" "registry" "get_record_bytes" ""]]

/-- A sign request with the matching tetraplet. -/
def signArgsGood : Args :=
  Args.mk "sig" "sign" [.arr [.num 1, .num 2]]
    [[Tetraplet.mk "local-peer" "registry" "get_record_bytes" ""]]

/-- A file system where every path exists and canonicalizes to itself. -/
def canonId : FsPath → Option FsPath := some

/-- A particle fixture with deadline 100. -/
def particleFix : Particle :=
  { id := "p1", timestamp := 0, ttl := 100, script := "(null)", data := [1] }

/-- A second arrival of the same particle with different data. -/
def particleFix2 : Particle :=
  { id := "p1", timestamp := 0, ttl := 100, script := "(null)", data := [2] }

/-- A state whose only actor, at key ("p1","peer"), is busy with an empty
queue (obtained by ingesting the fixture particle and polling once). -/
def busyStateFix : Plumber :=
  (poll 1 (ingest 0 particleFix (initPlumber "peer" 10)).2).2

/-! ## Claims -/

/-- C5: the host call `("op", "identity")` applied to a single argument
returns it unchanged: for every one-element argument list `[v]`,
`builtins_call` yields `FunctionOutcome::Ok(v)`; in particular
`op.identity("hello") = Ok("hello")`. -/
theorem op_identity_returns_argument (b : Builtins) (p : ParticleParams)
    (v : JValue) (ts : List (List Tetraplet)) :
    b.builtins_call (Args.mk "op" "identity" [v] ts) p = .Ok v ∧
    identity [.str "hello"] = .Ok (.str "hello") :=
  ⟨rfl, rfl⟩

/-- C9: `array_slice` is total and guarded — exactly three arguments are
required; a non-array first argument, an ill-typed index, or out-of-bounds
indexes (`start > end` or `end > len`) produce an error; a well-formed call
returns the subarray `[start, end)`; but the empty array short-circuits to
`Ok([])` for arbitrary (even ill-typed) `start` and `end`. -/
theorem array_slice_guarded (a : List JValue) (start stop : JValue)
    (s e : Nat) (args : List JValue) :
    (args.length ≠ 3 → ∃ msg, array_slice args = .error msg) ∧
    (∀ v, (∀ xs, v ≠ JValue.arr xs) →
      array_slice [v, start, stop] = .error "first argument must be an array") ∧
    (array_slice [.arr [], start, stop] = .ok (.arr [])) ∧
    (a ≠ [] → start.as_u64 = some s → stop.as_u64 = some e →
      s ≤ e → e ≤ a.length →
      array_slice [.arr a, start, stop] = .ok (.arr ((a.drop s).take (e - s)))) ∧
    (a ≠ [] → start.as_u64 = some s → stop.as_u64 = some e →
      (s > e ∨ e > a.length) →
      array_slice [.arr a, start, stop] = .error "slice indexes out of bounds") ∧
    (a ≠ [] → start.as_u64 = none →
      array_slice [.arr a, start, stop]
        = .error "second argument (start index) must be an unsigned integer") ∧
    (a ≠ [] → start.as_u64 = some s → stop.as_u64 = none →
      array_slice [.arr a, start, stop]
        = .error "third argument (end index) must be an unsigned integer") := by
  refine ⟨?_, ?_, rfl, ?_, ?_, ?_, ?_⟩
  · intro hlen
    rcases args with _ | ⟨x, _ | ⟨y, _ | ⟨z, _ | ⟨w, rest⟩⟩⟩⟩
    · exact ⟨_, rfl⟩
    · exact ⟨_, rfl⟩
    · exact ⟨_, rfl⟩
    · simp at hlen
    · exact ⟨_, rfl⟩
  · intro v hv
    cases v with
    | arr xs => exact absurd rfl (hv xs)
    | null => rfl
    | bool _ => rfl
    | num _ => rfl
    | str _ => rfl
    | obj _ => rfl
  · intro ha hs he hse hea
    rcases a with _ | ⟨x, t⟩
    · exact absurd rfl ha
    · simp only [array_slice, List.isEmpty_cons, hs, he, Bool.false_eq_true,
        if_false]
      rw [if_neg (by simp only [List.length_cons] at hea ⊢; omega)]
  · intro ha hs he hse
    rcases a with _ | ⟨x, t⟩
    · exact absurd rfl ha
    · simp only [array_slice, List.isEmpty_cons, hs, he, Bool.false_eq_true,
        if_false]
      rw [if_pos (by simpa using hse)]
  · intro ha hs
    rcases a with _ | ⟨x, t⟩
    · exact absurd rfl ha
    · simp only [array_slice, List.isEmpty_cons, hs, Bool.false_eq_true, if_false]
  · intro ha hs he
    rcases a with _ | ⟨x, t⟩
    · exact absurd rfl ha
    · simp only [array_slice, List.isEmpty_cons, hs, he, Bool.false_eq_true,
        if_false]

/-- C9 witness: a concrete well-formed slice, obtained from the theorem. -/
theorem array_slice_guarded_witness :
    array_slice [.arr [.num 5, .num 7], .num 0, .num 1] = .ok (.arr [.num 5]) :=
  (array_slice_guarded [.num 5, .num 7] (.num 0) (.num 1) 0 1 []).2.2.2.1
    (by simp) (by decide) (by decide) (by decide) (by decide)

/-- C4: `Builtins::call` resolves a host call by `(service_id,
function_name)`: a resolved builtin's outcome is returned as is; a
`NotDefined` builtin dispatch falls through to the custom-service registry
(function looked up by name, else the service's `unhandled` fallback); and
only when no custom entry applies does the call reach the application
services (`call_service`). -/
theorem call_dispatch_chain (b : Builtins) (args a' : Args)
    (p p' : ParticleParams) :
    (b.builtins_call args p = .NotDefined a' p' →
      b.call args p = (b.custom_service_call a' p').or_else b.call_service) ∧
    ((∀ a2 p2, b.builtins_call args p ≠ .NotDefined a2 p2) →
      b.call args p = b.builtins_call args p) ∧
    (∀ cs f, lookupAssoc b.custom_services a'.service_id = some cs →
      lookupAssoc cs.functions a'.function_name = some f →
      b.custom_service_call a' p' = f a' p') ∧
    (∀ cs f, lookupAssoc b.custom_services a'.service_id = some cs →
      lookupAssoc cs.functions a'.function_name = none →
      cs.unhandled = some f →
      b.custom_service_call a' p' = f a' p') ∧
    (lookupAssoc b.custom_services a'.service_id = none →
      b.custom_service_call a' p' = .NotDefined a' p') ∧
    (b.custom_service_call a' p' = .NotDefined a' p' →
      (b.custom_service_call a' p').or_else b.call_service
        = b.call_service a' p') := by
  refine ⟨?_, ?_, ?_, ?_, ?_, ?_⟩
  · intro h
    unfold Builtins.call
    rw [h]
  · intro h
    unfold Builtins.call
    cases hb : b.builtins_call args p with
    | NotDefined a2 p2 => exact absurd hb (h a2 p2)
    | Ok v => rfl
    | Empty => rfl
    | Err e => rfl
  · intro cs f h1 h2
    simp only [Builtins.custom_service_call, h1, h2]
  · intro cs f h1 h2 h3
    simp only [Builtins.custom_service_call, h1, h2, h3]
  · intro h
    simp only [Builtins.custom_service_call, h]
  · intro h
    rw [h]
    rfl

/-- C4 witness: a call to the registered custom service `mysrv.f` is not a
builtin, reaches the custom registry and returns its result. -/
theorem call_dispatch_chain_witness :
    builtinsFix.call (Args.mk "mysrv" "f" [] []) paramsFix = .Ok (.num 42) := by
  have h := call_dispatch_chain builtinsFix (Args.mk "mysrv" "f" [] [])
    (Args.mk "mysrv" "f" [] []) paramsFix paramsFix
  rw [h.1 rfl, h.2.2.1 customFix (fun _ _ => .Ok (.num 42)) rfl rfl]
  rfl

/-- C8 counterexample: with the data argument decodable but the tetraplet
naming a foreign peer, `sign` exits with `Err` — not with an `Ok` object
carrying `success = false` as the claim states. -/
theorem sign_tetraplet_mismatch_is_err :
    builtinsFix.sign signArgsWrongPeer
      = .error "data is expected to be produced by service 'registry' on the local peer" ∧
    builtinsFix.builtins_call signArgsWrongPeer paramsFix
      = .Err "data is expected to be produced by service 'registry' on the local peer" :=
  ⟨rfl, rfl⟩

/-- C8 amended: `sign` replies `Ok` with `success = true` and a non-empty
signature exactly when the data decodes, the first tetraplet group is a
single tetraplet matching (local peer, "registry", "get_record_bytes", empty
json_path) and the keypair signs; a data-decode or signing failure replies
`Ok` with `success = false`, a non-empty error and an empty signature; but a
tetraplet mismatch (or a tetraplet group that is not a single tetraplet)
exits with `Err` instead of an `Ok` reply. -/
theorem sign_outcome_characterization (b : Builtins) (args : Args) :
    (∀ e, argNext JValue.asBytes args.function_args = .error e →
      b.sign args = .ok (signResponse false [.str e] [])) ∧
    (∀ data rest t, argNext JValue.asBytes args.function_args = .ok (data, rest) →
      args.tetraplets.head? = some [t] →
      t.peer_pk = b.local_peer_id → t.service_id = "registry" →
      t.function_name = "get_record_bytes" → t.json_path = "" →
      (∀ sig, b.root_sign data = .ok sig →
        b.sign args = .ok (signResponse true [] [bytesToJ sig])) ∧
      (∀ e, b.root_sign data = .error e →
        b.sign args = .ok (signResponse false [.str e] []))) ∧
    (∀ data rest t, argNext JValue.asBytes args.function_args = .ok (data, rest) →
      args.tetraplets.head? = some [t] →
      (t.peer_pk ≠ b.local_peer_id ∨
        (t.service_id, t.function_name) ≠ ("registry", "get_record_bytes") ∨
        t.json_path ≠ "") →
      ∃ msg, b.sign args = .error msg) ∧
    (∀ data rest, argNext JValue.asBytes args.function_args = .ok (data, rest) →
      (∀ t, args.tetraplets.head? ≠ some [t]) →
      ∃ msg, b.sign args = .error msg) := by
  refine ⟨?_, ?_, ?_, ?_⟩
  · intro e he
    simp only [Builtins.sign, he]
  · intro data rest t h1 h2 hp hs hf hj
    simp only [Builtins.sign, h1, h2]
    rw [if_neg (by simp [hp]), if_neg (by simp [hs, hf]), if_neg (by simp [hj])]
    constructor
    · intro sig hsig
      simp only [hsig]
    · intro e he
      simp only [he]
  · intro data rest t h1 h2 hbad
    simp only [Builtins.sign, h1, h2]
    by_cases hp : t.peer_pk = b.local_peer_id
    · rw [if_neg (by simp [hp])]
      by_cases hsf : (t.service_id, t.function_name) = ("registry", "get_record_bytes")
      · rw [if_neg (by simp [hsf])]
        have hj : t.json_path ≠ "" := by
          rcases hbad with h | h | h
          · exact absurd hp h
          · exact absurd hsf h
          · exact h
        rw [if_pos hj]
        exact ⟨_, rfl⟩
      · rw [if_pos hsf]
        exact ⟨_, rfl⟩
    · rw [if_pos hp]
      exact ⟨_, rfl⟩
  · intro data rest h1 hno
    cases hh : args.tetraplets.head? with
    | none =>
      simp only [Builtins.sign, h1, hh]
      exact ⟨_, rfl⟩
    | some ts =>
      cases ts with
      | nil =>
        simp only [Builtins.sign, h1, hh]
        exact ⟨_, rfl⟩
      | cons t rest2 =>
        cases rest2 with
        | nil => exact absurd hh (hno t)
        | cons u rest3 =>
          simp only [Builtins.sign, h1, hh]
          exact ⟨_, rfl⟩

/-- C8 witness (for the amended claim): a fully matching request is signed
with `success = true`. -/
theorem sign_outcome_characterization_witness :
    builtinsFix.sign signArgsGood
      = .ok (signResponse true [] [bytesToJ [1, 2]]) :=
  ((sign_outcome_characterization builtinsFix signArgsGood).2.1 [1, 2] []
    (Tetraplet.mk "local-peer" "registry" "get_record_bytes" "")
    rfl rfl rfl rfl rfl rfl).1 [1, 2] rfl

/-- A list is a Boolean prefix of itself followed by anything. -/
theorem isPrefixOf_self_append (l t : FsPath) : l.isPrefixOf (l ++ t) = true := by
  induction l with
  | nil => simp [List.isPrefixOf]
  | cons x xs ih => simp [List.isPrefixOf, ih]

/-- Boolean prefix test gives an actual list prefix. -/
theorem isPrefixOf_append (l1 l2 : FsPath) (h : l1.isPrefixOf l2 = true) :
    ∃ tail, l2 = l1 ++ tail := by
  induction l1 generalizing l2 with
  | nil => exact ⟨l2, rfl⟩
  | cons x xs ih =>
    cases l2 with
    | nil => simp [List.isPrefixOf] at h
    | cons y ys =>
      simp only [List.isPrefixOf, Bool.and_eq_true, beq_iff_eq] at h
      obtain ⟨rfl, h2⟩ := h
      obtain ⟨tail, ht⟩ := ih ys h2
      exact ⟨tail, by rw [ht]; rfl⟩

/-- C6: vault access is confined per particle: `resolve_vault_path` returns
`Ok p` only when `p` is the canonicalized form of the request and lies under
the particle's own real vault directory `particles_vault_dir/particle_id`;
a path not under the virtual vault prefix of that particle id yields
`WrongVault`, a path that does not canonicalize yields `NotFound`, and a
canonicalized path escaping the real vault prefix yields `WrongVault`. -/
theorem resolve_vault_path_confined (canon : FsPath → Option FsPath)
    (virtualRoot dir path : FsPath) (pid : String) :
    (∀ p, resolve_vault_path canon virtualRoot dir path pid = .ok p →
      ∃ rest tail, stripComponents (virtualRoot ++ [pid]) path = some rest ∧
        canon ((dir ++ [pid]) ++ rest) = some p ∧
        p = (dir ++ [pid]) ++ tail) ∧
    (stripComponents (virtualRoot ++ [pid]) path = none →
      resolve_vault_path canon virtualRoot dir path pid
        = .error (.WrongVault path (virtualRoot ++ [pid]))) ∧
    (∀ rest, stripComponents (virtualRoot ++ [pid]) path = some rest →
      canon ((dir ++ [pid]) ++ rest) = none →
      resolve_vault_path canon virtualRoot dir path pid
        = .error (.NotFound path)) ∧
    (∀ rest p, stripComponents (virtualRoot ++ [pid]) path = some rest →
      canon ((dir ++ [pid]) ++ rest) = some p →
      (dir ++ [pid]).isPrefixOf p = false →
      resolve_vault_path canon virtualRoot dir path pid
        = .error (.WrongVault p (dir ++ [pid]))) := by
  refine ⟨?_, ?_, ?_, ?_⟩
  · intro p hp
    simp only [resolve_vault_path] at hp
    split at hp
    · exact absurd hp (by simp)
    · rename_i rest hs
      split at hp
      · exact absurd hp (by simp)
      · rename_i q hc
        split at hp
        · rename_i hpre
          obtain rfl : q = p := by simpa using hp
          obtain ⟨tail, ht⟩ := isPrefixOf_append _ _ hpre
          exact ⟨rest, tail, hs, hc, ht⟩
        · exact absurd hp (by simp)
  · intro hs
    simp [resolve_vault_path, hs]
  · intro rest hs hc
    have hc' : canon (dir ++ pid :: rest) = none := by simpa using hc
    simp [resolve_vault_path, hs, hc']
  · intro rest p hs hc hpre
    have hc' : canon (dir ++ pid :: rest) = some p := by simpa using hc
    have hpre' : ¬ ((dir ++ [pid]) <+: p) := by
      intro hcontra
      obtain ⟨tail, rfl⟩ := hcontra
      rw [isPrefixOf_self_append] at hpre
      simp at hpre
    simp [resolve_vault_path, hs, hc', hpre']

/-- C6 witness: with an identity file system, the virtual path
`tmp/vault/pid1/file` resolves inside `data/vault/pid1`. -/
theorem resolve_vault_path_confined_witness :
    ∃ rest tail,
      stripComponents (["tmp", "vault"] ++ ["pid1"])
        ["tmp", "vault", "pid1", "file"] = some rest ∧
      canonId ((["data", "vault"] ++ ["pid1"]) ++ rest)
        = some (["data", "vault", "pid1"] ++ ["file"]) ∧
      (["data", "vault", "pid1"] ++ ["file"] : FsPath)
        = (["data", "vault"] ++ ["pid1"]) ++ tail :=
  (resolve_vault_path_confined canonId ["tmp", "vault"] ["data", "vault"]
    ["tmp", "vault", "pid1", "file"] "pid1").1
    (["data", "vault", "pid1"] ++ ["file"]) rfl

/-- XOR by a fixed word is injective. -/
theorem xor_left_cancel (t a b : Nat) (h : t ^^^ a = t ^^^ b) : a = b := by
  have h2 : t ^^^ (t ^^^ a) = t ^^^ (t ^^^ b) := by rw [h]
  rwa [Nat.xor_cancel_left, Nat.xor_cancel_left] at h2

/-- `kadDedup` keeps the head of its input. -/
theorem kadDedup_head :
    ∀ (l : List KadKey) (x : KadKey) (xs : List KadKey), l = x :: xs →
      ∃ ys, kadDedup l = x :: ys := by
  intro l
  induction l using kadDedup.induct with
  | case1 =>
    intro x xs h
    cases h
  | case2 a =>
    intro x xs h
    cases h
    exact ⟨[], by rw [kadDedup]⟩
  | case3 a c rest hac ih =>
    intro x xs h
    cases h
    obtain ⟨ys, hys⟩ := ih a rest rfl
    exact ⟨ys, by rw [kadDedup, if_pos hac]; exact hys⟩
  | case4 a c rest hac ih =>
    intro x xs h
    cases h
    exact ⟨kadDedup (c :: rest), by rw [kadDedup, if_neg hac]⟩

/-- Every element of `kadDedup l` comes from `l`. -/
theorem kadDedup_subset : ∀ l : List KadKey, ∀ x ∈ kadDedup l, x ∈ l := by
  intro l
  induction l using kadDedup.induct with
  | case1 =>
    intro x hx
    simp [kadDedup] at hx
  | case2 a =>
    intro x hx
    rw [kadDedup] at hx
    exact hx
  | case3 a c rest hac ih =>
    intro x hx
    rw [kadDedup, if_pos hac] at hx
    have := ih x hx
    simp only [List.mem_cons] at this ⊢
    tauto
  | case4 a c rest hac ih =>
    intro x hx
    rw [kadDedup, if_neg hac] at hx
    rcases List.mem_cons.mp hx with rfl | hx2
    · exact List.mem_cons_self _ _
    · have := ih x hx2
      simp only [List.mem_cons] at this ⊢
      tauto

/-- After sorting by XOR distance to `k`, dropping adjacent hash-duplicates
leaves a chain of strictly increasing distances. -/
theorem kadDedup_chain (k : KadKey) :
    ∀ l : List KadKey,
      l.Pairwise (fun x y => kad_distance k x ≤ kad_distance k y) →
      List.Chain' (fun x y => kad_distance k x < kad_distance k y) (kadDedup l) := by
  intro l
  induction l using kadDedup.induct with
  | case1 =>
    intro _
    simp [kadDedup]
  | case2 a =>
    intro _
    simp [kadDedup]
  | case3 a c rest hac ih =>
    intro hp
    rw [kadDedup, if_pos hac]
    have h1 := List.pairwise_cons.mp hp
    have h2 := List.pairwise_cons.mp h1.2
    refine ih ?_
    exact List.pairwise_cons.mpr ⟨fun y hy => h1.1 y (List.mem_cons_of_mem c hy), h2.2⟩
  | case4 a c rest hac ih =>
    intro hp
    rw [kadDedup, if_neg hac]
    obtain ⟨ys, hys⟩ := kadDedup_head (c :: rest) c rest rfl
    rw [hys]
    have h1 := List.pairwise_cons.mp hp
    have hle : kad_distance k a ≤ kad_distance k c :=
      h1.1 c (List.mem_cons_self c rest)
    have hlt : kad_distance k a < kad_distance k c := by
      rcases Nat.lt_or_ge (kad_distance k a) (kad_distance k c) with h | h
      · exact h
      · exact absurd (xor_left_cancel _ _ _ (Nat.le_antisymm hle h)) hac
    have hchain := ih h1.2
    rw [hys] at hchain
    exact List.Chain'.cons hlt hchain

/-- C10: `kad_merge` concatenates `left ++ right`, base58-decodes every
element (failing when one does not decode), sorts stably by XOR distance to
the target key, drops adjacent duplicates, and returns the first `count`
(default `K_VALUE = 20`) re-encoded keys: the result comes from the decoded
inputs, has strictly increasing distances to the target (hence is sorted and
duplicate-free as keys), and has length at most `count`. -/
theorem kad_merge_sorted_dedup_truncated (b : Builtins) (target : String)
    (leftJ rightJ : JValue) (left right : List String) (rest0 rest1 : List JValue)
    (countO : Option Nat) (tbytes : Bytes) (ks0 : List KadKey)
    (hL : JValue.asStringList leftJ = some left)
    (hR : JValue.asStringList rightJ = some right)
    (hC : argNextOpt JValue.as_u64 rest0 = .ok (countO, rest1))
    (hT : b.b58decode target = some tbytes)
    (hK : decodeKeys b (left ++ right) = .ok ks0) :
    ∃ ks : List KadKey,
      kad_merge b (JValue.str target :: leftJ :: rightJ :: rest0)
        = .ok (.arr (ks.map (fun k => JValue.str (b.b58encode k.preimage)))) ∧
      ks.length ≤ countO.getD K_VALUE ∧
      ks.Pairwise (fun x y => kad_distance (mkKey b tbytes) x
        < kad_distance (mkKey b tbytes) y) ∧
      ks.Pairwise (fun x y => x.hash ≠ y.hash) ∧
      ∀ x ∈ ks, x ∈ ks0 := by
  classical
  haveI : IsTrans KadKey
      (fun x y => kad_distance (mkKey b tbytes) x ≤ kad_distance (mkKey b tbytes) y) :=
    ⟨fun a c d hac hcd => Nat.le_trans hac hcd⟩
  haveI : IsTotal KadKey
      (fun x y => kad_distance (mkKey b tbytes) x ≤ kad_distance (mkKey b tbytes) y) :=
    ⟨fun a c => Nat.le_total _ _⟩
  have hsorted :
      (List.insertionSort
        (fun x y => kad_distance (mkKey b tbytes) x ≤ kad_distance (mkKey b tbytes) y)
        ks0).Pairwise
        (fun x y => kad_distance (mkKey b tbytes) x ≤ kad_distance (mkKey b tbytes) y) :=
    List.sorted_insertionSort _ ks0
  have hchain := kadDedup_chain (mkKey b tbytes) _ hsorted
  haveI : IsTrans KadKey
      (fun x y => kad_distance (mkKey b tbytes) x < kad_distance (mkKey b tbytes) y) :=
    ⟨fun a c d hac hcd => Nat.lt_trans hac hcd⟩
  have hpair := List.chain'_iff_pairwise.mp hchain
  have hpair2 := hpair.sublist (List.take_sublist (countO.getD K_VALUE) _)
  refine ⟨(kadDedup (List.insertionSort
      (fun x y => kad_distance (mkKey b tbytes) x ≤ kad_distance (mkKey b tbytes) y)
      ks0)).take (countO.getD K_VALUE), ?_, ?_, ?_, ?_, ?_⟩
  · simp only [kad_merge, argNext, JValue.asString, hL, hR, hC, hT, hK,
      Except.bind, bind, pure, Except.pure]
    rw [List.map_take]
  · rw [List.length_take]
    exact Nat.min_le_left _ _
  · exact hpair2
  · refine hpair2.imp ?_
    intro x y hxy hcontra
    exact absurd (congrArg (fun z => (mkKey b tbytes).hash ^^^ z) hcontra)
      (Nat.ne_of_lt hxy)
  · intro x hx
    have hx2 := List.mem_of_mem_take hx
    have hx3 := kadDedup_subset _ x hx2
    exact (List.mem_insertionSort _).mp hx3

/-- C10 witness: merging ["a"] and ["b"] towards target "t" under the
fixture codecs. -/
theorem kad_merge_sorted_dedup_truncated_witness :
    ∃ ks : List KadKey,
      kad_merge builtinsFix [JValue.str "t", .arr [.str "a"], .arr [.str "b"]]
        = .ok (.arr (ks.map (fun k => JValue.str (builtinsFix.b58encode k.preimage)))) ∧
      ks.length ≤ (none : Option Nat).getD K_VALUE ∧
      ks.Pairwise (fun x y => kad_distance (mkKey builtinsFix [116]) x
        < kad_distance (mkKey builtinsFix [116]) y) ∧
      ks.Pairwise (fun x y => x.hash ≠ y.hash) ∧
      ∀ x ∈ ks, x ∈ [KadKey.mk [97] 353, KadKey.mk [98] 354] :=
  kad_merge_sorted_dedup_truncated builtinsFix "t" (.arr [.str "a"])
    (.arr [.str "b"]) ["a"] ["b"] [] [] none [116]
    [KadKey.mk [97] 353, KadKey.mk [98] 354] rfl rfl rfl rfl rfl

/-! ### Actor-map bookkeeping lemmas -/

theorem lookupActor_update (k k' : ActorKey) (f : Actor → Actor) :
    ∀ l : List (ActorKey × Actor),
      lookupActor k' (updateActor k f l)
        = if k' = k then (lookupActor k l).map f else lookupActor k' l := by
  intro l
  induction l with
  | nil => simp [lookupActor, updateActor]
  | cons ka rest ih =>
    obtain ⟨k0, a0⟩ := ka
    by_cases h0 : k0 = k <;> by_cases h1 : k0 = k' <;> by_cases h2 : k' = k <;>
      simp_all [lookupActor, updateActor]

theorem keys_updateActor (k : ActorKey) (f : Actor → Actor) :
    ∀ l : List (ActorKey × Actor),
      (updateActor k f l).map Prod.fst = l.map Prod.fst := by
  intro l
  induction l with
  | nil => rfl
  | cons ka rest ih =>
    obtain ⟨k0, a0⟩ := ka
    by_cases h0 : k0 = k
    · rw [updateActor, if_pos h0]
      simp
    · rw [updateActor, if_neg h0]
      simpa using ih

theorem lookupActor_append (k : ActorKey) :
    ∀ l1 l2 : List (ActorKey × Actor),
      lookupActor k (l1 ++ l2)
        = match lookupActor k l1 with
          | some a => some a
          | none => lookupActor k l2 := by
  intro l1 l2
  induction l1 with
  | nil => simp [lookupActor]
  | cons ka rest ih =>
    obtain ⟨k0, a0⟩ := ka
    by_cases h0 : k0 = k
    · rw [List.cons_append, lookupActor, if_pos h0, lookupActor, if_pos h0]
    · rw [List.cons_append, lookupActor, if_neg h0, lookupActor, if_neg h0, ih]

theorem lookupActor_none_iff (k : ActorKey) :
    ∀ l : List (ActorKey × Actor),
      lookupActor k l = none ↔ k ∉ l.map Prod.fst := by
  intro l
  induction l with
  | nil => simp [lookupActor]
  | cons ka rest ih =>
    obtain ⟨k0, a0⟩ := ka
    by_cases h0 : k0 = k
    · subst h0
      rw [lookupActor, if_pos rfl]
      simp
    · rw [lookupActor, if_neg h0]
      simp only [List.map_cons, List.mem_cons]
      rw [ih]
      constructor
      · rintro h (rfl | h2)
        · exact h0 rfl
        · exact h h2
      · intro h h2
        exact h (Or.inr h2)

theorem lookupActor_some_mem (k : ActorKey) (a : Actor) :
    ∀ l : List (ActorKey × Actor), lookupActor k l = some a → (k, a) ∈ l := by
  intro l
  induction l with
  | nil => intro h; simp [lookupActor] at h
  | cons ka rest ih =>
    obtain ⟨k0, a0⟩ := ka
    intro h
    by_cases h0 : k0 = k
    · subst h0
      rw [lookupActor, if_pos rfl] at h
      cases h
      exact List.mem_cons_self _ _
    · rw [lookupActor, if_neg h0] at h
      exact List.mem_cons_of_mem _ (ih h)

theorem lookupActor_filter (p : ActorKey × Actor → Bool) (k : ActorKey) :
    ∀ l : List (ActorKey × Actor), (l.map Prod.fst).Nodup →
      lookupActor k (l.filter p)
        = (lookupActor k l).bind (fun a => if p (k, a) = true then some a else none) := by
  intro l
  induction l with
  | nil => intro _; simp [lookupActor]
  | cons ka rest ih =>
    obtain ⟨k0, a0⟩ := ka
    intro hnd
    simp only [List.map_cons, List.nodup_cons] at hnd
    by_cases h0 : k0 = k
    · subst h0
      rw [lookupActor, if_pos rfl]
      cases hp : p (k0, a0) with
      | true =>
        rw [List.filter_cons_of_pos hp, lookupActor, if_pos rfl]
        simp [hp]
      | false =>
        rw [List.filter_cons_of_neg (by simp [hp])]
        have hnone : lookupActor k0 rest = none :=
          (lookupActor_none_iff k0 rest).mpr hnd.1
        have : lookupActor k0 (rest.filter p) = none := by
          rw [ih hnd.2, hnone]
          rfl
        rw [this]
        simp [hp]
    · rw [lookupActor, if_neg h0]
      cases hp : p (k0, a0) with
      | true =>
        rw [List.filter_cons_of_pos hp, lookupActor, if_neg h0, ih hnd.2]
      | false =>
        rw [List.filter_cons_of_neg (by simp [hp]), ih hnd.2]

theorem lookupActor_mapSnd (g : ActorKey × Actor → Actor) (k : ActorKey) :
    ∀ l : List (ActorKey × Actor),
      lookupActor k (l.map (fun ka => (ka.1, g ka)))
        = (lookupActor k l).map (fun a => g (k, a)) := by
  intro l
  induction l with
  | nil => simp [lookupActor]
  | cons ka rest ih =>
    obtain ⟨k0, a0⟩ := ka
    by_cases h0 : k0 = k
    · subst h0
      rw [List.map_cons, lookupActor, if_pos rfl, lookupActor, if_pos rfl]
      rfl
    · rw [List.map_cons, lookupActor, if_neg h0, lookupActor, if_neg h0, ih]

theorem keys_mapSnd (g : ActorKey × Actor → Actor) (l : List (ActorKey × Actor)) :
    (l.map (fun ka => (ka.1, g ka))).map Prod.fst = l.map Prod.fst := by
  induction l with
  | nil => rfl
  | cons ka rest ih => simp [ih]

theorem lookupActor_removeActor_self (k : ActorKey) :
    ∀ l : List (ActorKey × Actor), (l.map Prod.fst).Nodup →
      lookupActor k (removeActor k l) = none := by
  intro l
  induction l with
  | nil => intro _; rfl
  | cons ka rest ih =>
    obtain ⟨k0, a0⟩ := ka
    intro hnd
    simp only [List.map_cons, List.nodup_cons] at hnd
    by_cases h0 : k0 = k
    · subst h0
      rw [removeActor, if_pos rfl]
      exact (lookupActor_none_iff k0 rest).mpr hnd.1
    · rw [removeActor, if_neg h0, lookupActor, if_neg h0]
      exact ih hnd.2

theorem lookupActor_removeActor_other (k k' : ActorKey) (hne : k' ≠ k) :
    ∀ l : List (ActorKey × Actor),
      lookupActor k' (removeActor k l) = lookupActor k' l := by
  intro l
  induction l with
  | nil => rfl
  | cons ka rest ih =>
    obtain ⟨k0, a0⟩ := ka
    by_cases h0 : k0 = k
    · subst h0
      rw [removeActor, if_pos rfl, lookupActor, if_neg (fun hc => hne hc.symm)]
    · rw [removeActor, if_neg h0]
      by_cases h1 : k0 = k'
      · subst h1
        rw [lookupActor, if_pos rfl, lookupActor, if_pos rfl]
      · rw [lookupActor, if_neg h1, lookupActor, if_neg h1, ih]

theorem keys_removeActor_sublist (k : ActorKey) :
    ∀ l : List (ActorKey × Actor),
      ((removeActor k l).map Prod.fst).Sublist (l.map Prod.fst) := by
  intro l
  induction l with
  | nil => simp [removeActor]
  | cons ka rest ih =>
    obtain ⟨k0, a0⟩ := ka
    by_cases h0 : k0 = k
    · rw [removeActor, if_pos h0]
      simp only [List.map_cons]
      exact (List.sublist_cons_self _ _)
    · rw [removeActor, if_neg h0]
      simp only [List.map_cons]
      exact ih.cons₂ _

theorem eraseKey_sublist (k : ActorKey) :
    ∀ l : List ActorKey, (eraseKey k l).Sublist l := by
  intro l
  induction l with
  | nil => simp [eraseKey]
  | cons k0 rest ih =>
    by_cases h0 : k0 = k
    · rw [eraseKey, if_pos h0]
      exact List.sublist_cons_self _ _
    · rw [eraseKey, if_neg h0]
      exact ih.cons₂ _

theorem mem_eraseKey_of_ne (k k' : ActorKey) (hne : k' ≠ k) :
    ∀ l : List ActorKey, (k' ∈ eraseKey k l ↔ k' ∈ l) := by
  intro l
  induction l with
  | nil => simp [eraseKey]
  | cons k0 rest ih =>
    by_cases h0 : k0 = k
    · subst h0
      rw [eraseKey, if_pos rfl]
      simp only [List.mem_cons]
      constructor
      · exact Or.inr
      · rintro (rfl | h)
        · exact absurd rfl hne
        · exact h
    · rw [eraseKey, if_neg h0]
      simp only [List.mem_cons]
      rw [ih]

theorem not_mem_eraseKey_self (k : ActorKey) :
    ∀ l : List ActorKey, l.Nodup → k ∉ eraseKey k l := by
  intro l
  induction l with
  | nil => intro _; simp [eraseKey]
  | cons k0 rest ih =>
    intro hnd
    simp only [List.nodup_cons] at hnd
    by_cases h0 : k0 = k
    · subst h0
      rw [eraseKey, if_pos rfl]
      exact hnd.1
    · rw [eraseKey, if_neg h0]
      intro hc
      rcases List.mem_cons.mp hc with rfl | h2
      · exact h0 rfl
      · exact ih hnd.2 h2

/-! ### Scheduler lemmas -/

theorem readyActor_iff (now : Nat) (a : Actor) :
    readyActor now a = true ↔
      a.busy = false ∧ ∃ p rest, a.queue = p :: rest ∧ now < p.deadline := by
  cases hb : a.busy <;> cases hq : a.queue <;> simp [readyActor, hb, hq]

theorem mergeParticles_fields :
    ∀ (rest : List Particle) (p : Particle),
      (mergeParticles p rest).id = p.id ∧
      (mergeParticles p rest).timestamp = p.timestamp ∧
      (mergeParticles p rest).ttl = p.ttl := by
  intro rest
  induction rest with
  | nil => intro p; exact ⟨rfl, rfl, rfl⟩
  | cons q rest ih =>
    intro p
    have h := ih { p with data := q.data }
    simpa [mergeParticles] using h

theorem mergeParticles_deadline (rest : List Particle) (p : Particle) :
    (mergeParticles p rest).deadline = p.deadline := by
  have h := mergeParticles_fields rest p
  simp [Particle.deadline, h.2.1, h.2.2]

theorem mergeParticles_data_last :
    ∀ (front : List Particle) (p q : Particle),
      (mergeParticles p (front ++ [q])).data = q.data := by
  intro front
  induction front with
  | nil => intro p q; rfl
  | cons r front ih =>
    intro p q
    have h := ih { p with data := r.data } q
    simpa [mergeParticles] using h

theorem mergeQueue_data_last (l : List Particle) (q m : Particle)
    (h : mergeQueue (l ++ [q]) = some m) : m.data = q.data := by
  cases l with
  | nil =>
    simp only [List.nil_append, mergeQueue] at h
    cases h
    rfl
  | cons p rest =>
    simp only [List.cons_append, mergeQueue] at h
    cases h
    exact mergeParticles_data_last rest p q

theorem execs_map_key (now : Nat) :
    ∀ l : List (ActorKey × Actor),
      (∀ ka ∈ l, readyActor now ka.2 = true) →
      (l.filterMap (fun ka => (mergeQueue ka.2.queue).map
        (fun p => Execution.mk ka.1 p))).map Execution.key = l.map Prod.fst := by
  intro l
  induction l with
  | nil => intro _; rfl
  | cons ka rest ih =>
    intro h
    have hka := h ka (List.mem_cons_self _ _)
    obtain ⟨hb, p, r, hq, hd⟩ := (readyActor_iff now ka.2).mp hka
    rw [List.filterMap_cons]
    have hmq : (mergeQueue ka.2.queue).map (fun p => Execution.mk ka.1 p)
        = some (Execution.mk ka.1 (mergeParticles p r)) := by
      rw [hq]
      rfl
    rw [hmq, List.map_cons,
      ih (fun ka2 h2 => h ka2 (List.mem_cons_of_mem _ h2))]
    rfl

theorem mem_filter_keys_iff (P : ActorKey × Actor → Bool) (k : ActorKey)
    (l : List (ActorKey × Actor)) (hnd : (l.map Prod.fst).Nodup) :
    k ∈ (l.filter P).map Prod.fst ↔
      ∃ a, lookupActor k l = some a ∧ P (k, a) = true := by
  constructor
  · intro hm
    have hne : lookupActor k (l.filter P) ≠ none := by
      intro hcontra
      rw [lookupActor_none_iff] at hcontra
      exact hcontra hm
    cases hlf : lookupActor k (l.filter P) with
    | none => exact absurd hlf hne
    | some a =>
      rw [lookupActor_filter P k l hnd, Option.bind_eq_some] at hlf
      obtain ⟨a2, hll, hfa⟩ := hlf
      split at hfa
      · rename_i hP
        cases hfa
        exact ⟨_, hll, hP⟩
      · cases hfa
  · rintro ⟨a, hla, hP⟩
    have hsome : lookupActor k (l.filter P) = some a := by
      rw [lookupActor_filter P k l hnd, hla]
      simp [hP]
    exact List.mem_map.mpr ⟨(k, a), lookupActor_some_mem _ _ _ hsome, rfl⟩

/-! ### Invariant preservation -/

theorem plumberInv_init (peer : String) (limit : Nat) :
    PlumberInv (initPlumber peer limit) := by
  refine ⟨List.nodup_nil, List.nodup_nil, ?_⟩
  intro k
  simp [initPlumber, lookupActor]

theorem plumberInv_gc (now : Nat) (s : Plumber) (h : PlumberInv s) :
    PlumberInv (gc now s) := by
  obtain ⟨hnd, hinf, hiff⟩ := h
  have hact : (gc now s).actors
      = s.actors.filter (fun ka => ka.2.busy || decide (now ≤ ka.2.deadline)) := rfl
  have hfl : (gc now s).inflight = s.inflight := rfl
  refine ⟨?_, ?_, ?_⟩
  · rw [hact]
    exact List.Nodup.sublist ((List.filter_sublist _).map Prod.fst) hnd
  · rw [hfl]
    exact hinf
  · intro k
    rw [hfl, hact, hiff k, lookupActor_filter _ _ _ hnd]
    constructor
    · rintro ⟨a, hla, hb⟩
      refine ⟨a, ?_, hb⟩
      rw [hla]
      simp [Option.bind, hb]
    · rintro ⟨a, hla, hb⟩
      rw [Option.bind_eq_some] at hla
      obtain ⟨a2, hll, hfa⟩ := hla
      split at hfa
      · cases hfa
        exact ⟨_, hll, hb⟩
      · cases hfa

theorem plumberInv_ingest (now : Nat) (p : Particle) (s : Plumber)
    (h : PlumberInv s) : PlumberInv (ingest now p s).2 := by
  obtain ⟨hnd, hinf, hiff⟩ := h
  by_cases h1 : p.deadline ≤ now
  · simp only [ingest, if_pos h1]
    exact ⟨hnd, hinf, hiff⟩
  · by_cases h2 : s.limit ≤ totalQueued s
    · simp only [ingest, if_neg h1, if_pos h2]
      exact ⟨hnd, hinf, hiff⟩
    · cases hl : lookupActor (p.key s.peer_id) s.actors with
      | some a0 =>
        simp only [ingest, if_neg h1, if_neg h2, hl]
        refine ⟨?_, hinf, ?_⟩
        · rw [keys_updateActor]
          exact hnd
        · intro k
          rw [hiff k, lookupActor_update]
          by_cases hk : k = p.key s.peer_id
          · rw [if_pos hk, hk, hl]
            simp
          · rw [if_neg hk]
      | none =>
        simp only [ingest, if_neg h1, if_neg h2, hl]
        refine ⟨?_, hinf, ?_⟩
        · rw [List.map_append]
          simp only [List.map_cons, List.map_nil]
          rw [List.nodup_append]
          refine ⟨hnd, List.nodup_singleton _, ?_⟩
          intro x hx hy
          simp only [List.mem_singleton] at hy
          subst hy
          exact (lookupActor_none_iff _ _).mp hl hx
        · intro k
          rw [hiff k, lookupActor_append]
          cases hlk : lookupActor k s.actors with
          | some a2 => exact Iff.rfl
          | none =>
            by_cases hk : p.key s.peer_id = k
            · simp [lookupActor, hk]
            · simp [lookupActor, hk]

theorem plumberInv_complete (now : Nat) (k : ActorKey) (s : Plumber)
    (h : PlumberInv s) : PlumberInv (complete now k s) := by
  obtain ⟨hnd, hinf, hiff⟩ := h
  cases hl : lookupActor k s.actors with
  | none =>
    simp only [complete, hl]
    exact ⟨hnd, hinf, hiff⟩
  | some a =>
    by_cases hb : a.busy = true
    · simp only [complete, hl, if_pos hb]
      by_cases hq : a.queue.isEmpty = true
      · rw [if_pos hq]
        refine ⟨?_, ?_, ?_⟩
        · exact List.Nodup.sublist (keys_removeActor_sublist k s.actors) hnd
        · exact List.Nodup.sublist (eraseKey_sublist k s.inflight) hinf
        · intro k'
          by_cases hk : k' = k
          · subst hk
            constructor
            · intro hm
              exact absurd hm (not_mem_eraseKey_self _ _ hinf)
            · rintro ⟨a2, hla2, _⟩
              rw [lookupActor_removeActor_self _ _ hnd] at hla2
              cases hla2
          · rw [mem_eraseKey_of_ne _ _ hk, lookupActor_removeActor_other _ _ hk]
            exact hiff k'
      · rw [if_neg hq]
        refine ⟨?_, ?_, ?_⟩
        · rw [keys_updateActor]
          exact hnd
        · exact List.Nodup.sublist (eraseKey_sublist k s.inflight) hinf
        · intro k'
          rw [lookupActor_update]
          by_cases hk : k' = k
          · rw [if_pos hk]
            subst hk
            rw [hl]
            constructor
            · intro hm
              exact absurd hm (not_mem_eraseKey_self _ _ hinf)
            · rintro ⟨a2, ha2, hb2⟩
              cases ha2
              simp at hb2
          · rw [if_neg hk, mem_eraseKey_of_ne _ _ hk]
            exact hiff k'
    · simp only [complete, hl, if_neg hb]
      exact ⟨hnd, hinf, hiff⟩

theorem plumberInv_poll (now : Nat) (s : Plumber) (h : PlumberInv s) :
    PlumberInv (poll now s).2 := by
  obtain ⟨hnd, hinf, hiff⟩ := plumberInv_gc now s h
  have hact : (poll now s).2.actors
      = (gc now s).actors.map (fun ka => (ka.1,
          if readyActor now ka.2 then { ka.2 with busy := true, queue := [] }
          else ka.2)) := rfl
  have hfl : (poll now s).2.inflight
      = (gc now s).inflight ++
        (((gc now s).actors.filter (fun ka => readyActor now ka.2)).filterMap
          (fun ka => (mergeQueue ka.2.queue).map (fun p => Execution.mk ka.1 p))).map
          Execution.key := rfl
  have hkeys : (((gc now s).actors.filter (fun ka => readyActor now ka.2)).filterMap
      (fun ka => (mergeQueue ka.2.queue).map (fun p => Execution.mk ka.1 p))).map
      Execution.key
      = ((gc now s).actors.filter (fun ka => readyActor now ka.2)).map Prod.fst := by
    apply execs_map_key
    intro ka hka
    exact (List.mem_filter.mp hka).2
  have hlk : ∀ k2 : ActorKey,
      lookupActor k2 ((gc now s).actors.map (fun ka => (ka.1,
          if readyActor now ka.2 then { ka.2 with busy := true, queue := [] }
          else ka.2)))
      = (lookupActor k2 (gc now s).actors).map (fun a =>
          if readyActor now a then { a with busy := true, queue := [] } else a) :=
    fun k2 => lookupActor_mapSnd
      (fun ka => if readyActor now ka.2 then { ka.2 with busy := true, queue := [] }
        else ka.2) k2 (gc now s).actors
  refine ⟨?_, ?_, ?_⟩
  · rw [hact, keys_mapSnd]
    exact hnd
  · rw [hfl, hkeys, List.nodup_append]
    refine ⟨hinf, List.Nodup.sublist ((List.filter_sublist _).map Prod.fst) hnd, ?_⟩
    intro x hx hx2
    obtain ⟨a, hla, hP⟩ := (mem_filter_keys_iff _ _ _ hnd).mp hx2
    obtain ⟨a2, hla2, hb2⟩ := (hiff x).mp hx
    rw [hla] at hla2
    cases hla2
    have hbf := ((readyActor_iff now _).mp hP).1
    rw [hbf] at hb2
    cases hb2
  · intro k
    rw [hfl, hkeys, List.mem_append, hact, hlk k]
    cases hll : lookupActor k (gc now s).actors with
    | none =>
      constructor
      · rintro (hm | hm)
        · obtain ⟨a2, hla2, _⟩ := (hiff k).mp hm
          rw [hll] at hla2
          cases hla2
        · obtain ⟨a2, hla2, _⟩ := (mem_filter_keys_iff _ _ _ hnd).mp hm
          rw [hll] at hla2
          cases hla2
      · rintro ⟨a2, hla2, _⟩
        simp at hla2
    | some a =>
      by_cases hr : readyActor now a = true
      · constructor
        · intro _
          refine ⟨_, rfl, ?_⟩
          simp [hr]
        · intro _
          right
          exact (mem_filter_keys_iff _ _ _ hnd).mpr ⟨a, hll, hr⟩
      · constructor
        · rintro (hm | hm)
          · obtain ⟨a2, hla2, hb2⟩ := (hiff k).mp hm
            rw [hll] at hla2
            cases hla2
            refine ⟨_, rfl, ?_⟩
            simp [hr, hb2]
          · obtain ⟨a2, hla2, hP⟩ := (mem_filter_keys_iff _ _ _ hnd).mp hm
            rw [hll] at hla2
            cases hla2
            exact absurd hP hr
        · rintro ⟨a2, hla2, hb2⟩
          left
          apply (hiff k).mpr
          refine ⟨a, hll, ?_⟩
          simp only [Option.map_some'] at hla2
          cases hla2
          simpa [hr] using hb2

theorem plumberInv_reachable (s : Plumber) (h : Reachable s) : PlumberInv s := by
  induction h with
  | init peer limit => exact plumberInv_init peer limit
  | step hr hst ih =>
    revert ih
    cases hst with
    | ingest now p => exact fun ih => plumberInv_ingest now p _ ih
    | poll now => exact fun ih => plumberInv_poll now _ ih
    | complete now k => exact fun ih => plumberInv_complete now k _ ih
    | gc now => exact fun ih => plumberInv_gc now _ ih

/-- Counting in a duplicate-free list never exceeds one. -/
theorem count_le_one_of_nodup {α : Type} [BEq α] [LawfulBEq α]
    (l : List α) (h : l.Nodup) (k : α) : l.count k ≤ 1 := by
  induction l with
  | nil => simp
  | cons x rest ih =>
    simp only [List.nodup_cons] at h
    by_cases hxk : k = x
    · subst hxk
      have h0 : rest.count k = 0 := List.count_eq_zero.mpr h.1
      simp [List.count_cons, h0]
    · have h2 := ih h.2
      have hbeq : ¬ ((x == k) = true) := by
        simp only [beq_iff_eq]
        exact fun hc => hxk hc.symm
      simp only [List.count_cons, if_neg hbeq]
      omega

/-- C1: in every reachable Plumber state at most one interpreter invocation
is in flight per ActorKey: the in-flight book never holds a key twice, and
`poll` only returns keys whose actor is not busy (and not already in
flight), marking each returned actor busy, so that the new in-flight count
for a returned key is exactly one; only `complete` clears `busy`. -/
theorem plumber_at_most_one_inflight (s : Plumber) (h : Reachable s) :
    (∀ k : ActorKey, s.inflight.count k ≤ 1) ∧
    (∀ now k, k ∈ ((poll now s).1.map Execution.key) →
      (∃ a, lookupActor k (gc now s).actors = some a ∧ a.busy = false) ∧
      k ∉ s.inflight ∧
      (∃ a', lookupActor k (poll now s).2.actors = some a' ∧ a'.busy = true) ∧
      (poll now s).2.inflight.count k = 1) := by
  obtain ⟨hnd, hinf, hiff⟩ := plumberInv_reachable s h
  constructor
  · intro k
    exact count_le_one_of_nodup s.inflight hinf k
  · intro now k hk
    obtain ⟨hnd1, hinf1, hiff1⟩ := plumberInv_gc now s ⟨hnd, hinf, hiff⟩
    have hkeys : ((poll now s).1.map Execution.key)
        = ((gc now s).actors.filter (fun ka => readyActor now ka.2)).map Prod.fst := by
      have hex : (poll now s).1
          = ((gc now s).actors.filter (fun ka => readyActor now ka.2)).filterMap
            (fun ka => (mergeQueue ka.2.queue).map (fun p => Execution.mk ka.1 p)) := rfl
      rw [hex]
      apply execs_map_key
      intro ka hka
      exact (List.mem_filter.mp hka).2
    rw [hkeys] at hk
    obtain ⟨a, hla, hP⟩ := (mem_filter_keys_iff _ _ _ hnd1).mp hk
    have hb : a.busy = false := ((readyActor_iff now a).mp hP).1
    have hginf : (gc now s).inflight = s.inflight := rfl
    have hnotin : k ∉ s.inflight := by
      intro hm
      obtain ⟨a2, hla2, hb2⟩ := (hiff1 k).mp (hginf ▸ hm)
      rw [hla] at hla2
      cases hla2
      rw [hb] at hb2
      cases hb2
    refine ⟨⟨a, hla, hb⟩, hnotin, ?_, ?_⟩
    · have hact : (poll now s).2.actors
          = (gc now s).actors.map (fun ka => (ka.1,
              if readyActor now ka.2 then { ka.2 with busy := true, queue := [] }
              else ka.2)) := rfl
      have hlk := lookupActor_mapSnd
        (fun ka => if readyActor now ka.2 then { ka.2 with busy := true, queue := [] }
          else ka.2) k (gc now s).actors
      rw [hact, hlk, hla]
      refine ⟨_, rfl, ?_⟩
      simp [hP]
    · have hfl : (poll now s).2.inflight
          = (gc now s).inflight ++ ((poll now s).1.map Execution.key) := rfl
      rw [hfl, List.count_append, hkeys, hginf]
      have h0 : s.inflight.count k = 0 := List.count_eq_zero.mpr hnotin
      rw [h0]
      have hndr : (((gc now s).actors.filter
          (fun ka => readyActor now ka.2)).map Prod.fst).Nodup :=
        List.Nodup.sublist ((List.filter_sublist _).map Prod.fst) hnd1
      have hle := count_le_one_of_nodup _ hndr k
      have hge : 0 < (((gc now s).actors.filter
          (fun ka => readyActor now ka.2)).map Prod.fst).count k :=
        List.count_pos_iff.mpr hk
      omega

/-- C1 witness: the invariant instantiated on the concrete state obtained by
ingesting one particle and polling once. -/
theorem plumber_at_most_one_inflight_witness :
    (poll 1 (ingest 0 particleFix (initPlumber "peer" 10)).2).2.inflight.count
      ("p1", "peer") ≤ 1 :=
  (plumber_at_most_one_inflight _
    (Reachable.step
      (Reachable.step (Reachable.init "peer" 10) (Step.ingest 0 particleFix _))
      (Step.poll 1 _))).1 ("p1", "peer")

/-- C2: no interpreter invocation begins at or after its particle's
deadline: expiry is rejected at ingress (`ingest`), and every execution
handed out by `poll` — the only way an invocation starts — passes the
pre-dispatch deadline check, so the dispatched (merged) particle satisfies
`now < deadline`. -/
theorem poll_never_dispatches_expired (now : Nat) (s : Plumber) (e : Execution) :
    (e ∈ (poll now s).1 → now < e.particle.deadline) ∧
    (∀ p : Particle, p.deadline ≤ now →
      ingest now p s = (.Rejected "expired", s)) := by
  constructor
  · intro he
    have hex : (poll now s).1
        = ((gc now s).actors.filter (fun ka => readyActor now ka.2)).filterMap
          (fun ka => (mergeQueue ka.2.queue).map (fun p => Execution.mk ka.1 p)) := rfl
    rw [hex] at he
    obtain ⟨ka, hka, hfa⟩ := List.mem_filterMap.mp he
    have hready := (List.mem_filter.mp hka).2
    obtain ⟨hb, p, r, hq, hd⟩ := (readyActor_iff now ka.2).mp hready
    rw [hq] at hfa
    simp only [mergeQueue, Option.map_some'] at hfa
    cases hfa
    simpa [mergeParticles_deadline] using hd
  · intro p hp
    simp [ingest, hp]

/-- C2 witness: the single execution dispatched for the fixture particle at
time 1 is before its deadline, and an expired particle is rejected. -/
theorem poll_never_dispatches_expired_witness :
    1 < (Execution.mk ("p1", "peer") particleFix).particle.deadline ∧
    ingest 200 particleFix (initPlumber "peer" 10)
      = (.Rejected "expired", initPlumber "peer" 10) :=
  by
  constructor
  · apply (poll_never_dispatches_expired 1
      (ingest 0 particleFix (initPlumber "peer" 10)).2
      (Execution.mk ("p1", "peer") particleFix)).1
    rw [show (poll 1 (ingest 0 particleFix (initPlumber "peer" 10)).2).1
        = [Execution.mk ("p1", "peer") particleFix] from rfl]
    exact List.mem_singleton_self _
  · exact (poll_never_dispatches_expired 200 (initPlumber "peer" 10)
      (Execution.mk ("p1", "peer") particleFix)).2 particleFix (by decide)

/-- Pushing one particle onto an existing actor's queue grows the total
queue size by exactly one. -/
theorem sum_update_push (k : ActorKey) (p : Particle) (now : Nat) :
    ∀ (l : List (ActorKey × Actor)) (a : Actor), lookupActor k l = some a →
      ((updateActor k
          (fun a0 => { a0 with queue := a0.queue ++ [p], last_activity := now }) l).map
        (fun ka => ka.2.queue.length)).sum
      = ((l.map (fun ka => ka.2.queue.length)).sum) + 1 := by
  intro l
  induction l with
  | nil =>
    intro a ha
    simp [lookupActor] at ha
  | cons ka rest ih =>
    obtain ⟨k0, a0⟩ := ka
    intro a ha
    by_cases h0 : k0 = k
    · rw [updateActor, if_pos h0]
      simp only [List.map_cons, List.sum_cons, List.length_append,
        List.length_singleton]
      omega
    · rw [updateActor, if_neg h0]
      rw [lookupActor, if_neg h0] at ha
      simp only [List.map_cons, List.sum_cons, ih a ha]
      omega

/-- Folding a batch of arrivals for one existing key through `ingest`
appends them all, in order, to that key's queue; nothing else changes. -/
theorem ingestAll_spec (tIn : Nat) :
    ∀ (ps : List Particle) (s : Plumber) (pid : String) (a : Actor),
      lookupActor (pid, s.peer_id) s.actors = some a →
      (∀ p ∈ ps, p.id = pid) →
      (∀ p ∈ ps, tIn < p.deadline) →
      totalQueued s + ps.length ≤ s.limit →
      (ps.foldl (fun st p => (ingest tIn p st).2) s).peer_id = s.peer_id ∧
      (ps.foldl (fun st p => (ingest tIn p st).2) s).limit = s.limit ∧
      (ps.foldl (fun st p => (ingest tIn p st).2) s).inflight = s.inflight ∧
      (ps.foldl (fun st p => (ingest tIn p st).2) s).actors.map Prod.fst
        = s.actors.map Prod.fst ∧
      (∃ la, lookupActor (pid, s.peer_id)
          (ps.foldl (fun st p => (ingest tIn p st).2) s).actors
        = some { a with queue := a.queue ++ ps, last_activity := la }) ∧
      (∀ k', k' ≠ (pid, s.peer_id) →
        lookupActor k' (ps.foldl (fun st p => (ingest tIn p st).2) s).actors
          = lookupActor k' s.actors) := by
  intro ps
  induction ps with
  | nil =>
    intro s pid a hla _ _ _
    refine ⟨rfl, rfl, rfl, rfl, ⟨a.last_activity, ?_⟩, fun k' _ => rfl⟩
    simpa using hla
  | cons p ps ih =>
    intro s pid a hla hids hdl hcap
    have hid : p.id = pid := hids p (List.mem_cons_self _ _)
    have hd : tIn < p.deadline := hdl p (List.mem_cons_self _ _)
    have hlim : ¬ (s.limit ≤ totalQueued s) := by
      simp only [List.length_cons] at hcap
      omega
    have hkey : p.key s.peer_id = (pid, s.peer_id) := by
      simp [Particle.key, hid]
    have hstep : (ingest tIn p s).2
        = { s with actors := (updateActor (pid, s.peer_id)
            (fun a0 => { a0 with queue := a0.queue ++ [p], last_activity := tIn })
            s.actors) } := by
      simp only [ingest, if_neg (by omega : ¬ (p.deadline ≤ tIn)), if_neg hlim,
        hkey, hla]
    have hla2 : lookupActor (pid, s.peer_id)
        ((ingest tIn p s).2).actors
        = some { a with queue := a.queue ++ [p], last_activity := tIn } := by
      rw [hstep, lookupActor_update, if_pos rfl, hla]
      rfl
    have hcap2 : totalQueued (ingest tIn p s).2 + ps.length
        ≤ (ingest tIn p s).2.limit := by
      have hsum := sum_update_push (pid, s.peer_id) p tIn s.actors a hla
      have h1 : totalQueued (ingest tIn p s).2 = totalQueued s + 1 := by
        rw [hstep]
        exact hsum
      rw [h1]
      have hl2 : (ingest tIn p s).2.limit = s.limit := by rw [hstep]
      rw [hl2]
      simp only [List.length_cons] at hcap
      omega
    have hpeer : (ingest tIn p s).2.peer_id = s.peer_id := by
      rw [hstep]
    have ih2 := ih (ingest tIn p s).2 pid
      { a with queue := a.queue ++ [p], last_activity := tIn }
      (by rw [hpeer]; exact hla2)
      (fun q hq => hids q (List.mem_cons_of_mem _ hq))
      (fun q hq => hdl q (List.mem_cons_of_mem _ hq))
      hcap2
    obtain ⟨hp1, hp2, hp3, hp4, ⟨la, hp5⟩, hp6⟩ := ih2
    have hfold : (p :: ps).foldl (fun st p => (ingest tIn p st).2) s
        = ps.foldl (fun st p => (ingest tIn p st).2) (ingest tIn p s).2 := rfl
    refine ⟨?_, ?_, ?_, ?_, ⟨la, ?_⟩, ?_⟩
    · rw [hfold, hp1, hpeer]
    · rw [hfold, hp2, hstep]
    · rw [hfold, hp3, hstep]
    · rw [hfold, hp4, hstep, keys_updateActor]
    · rw [hfold]
      rw [hpeer] at hp5
      rw [hp5]
      simp
    · intro k' hk'
      rw [hfold]
      rw [hpeer] at hp6
      rw [hp6 k' hk', hstep, lookupActor_update, if_neg hk']

/-- C3: arrivals of the same particle id ingested while a prior run for the
key is in flight are all folded into exactly one additional execution: after
the in-flight run completes, a single `poll` dispatches exactly one
execution for the key, consuming the whole queue (the prior queue and all
`n` re-ingests), with the latest arrival's data superseding; afterwards the
key's queue is empty and the actor busy again. -/
theorem reingest_coalesces_to_single_execution
    (s : Plumber) (pid : String) (a : Actor) (ps : List Particle)
    (tIn tc tp : Nat)
    (hnd : (s.actors.map Prod.fst).Nodup)
    (hla : lookupActor (pid, s.peer_id) s.actors = some a)
    (hbusy : a.busy = true)
    (hps : ps ≠ [])
    (hids : ∀ p ∈ ps, p.id = pid)
    (hdl : ∀ p ∈ ps, tIn < p.deadline)
    (hcap : totalQueued s + ps.length ≤ s.limit)
    (hall : ∀ p ∈ a.queue ++ ps, tp < p.deadline)
    (htp : tp ≤ a.deadline) :
    (((poll tp (complete tc (pid, s.peer_id)
        (ps.foldl (fun st p => (ingest tIn p st).2) s))).1.map
        Execution.key).count (pid, s.peer_id) = 1) ∧
    (∃ e, e ∈ (poll tp (complete tc (pid, s.peer_id)
        (ps.foldl (fun st p => (ingest tIn p st).2) s))).1 ∧
      e.key = (pid, s.peer_id) ∧
      mergeQueue (a.queue ++ ps) = some e.particle ∧
      (∀ front q0, ps = front ++ [q0] → e.particle.data = q0.data)) ∧
    (∃ a3, lookupActor (pid, s.peer_id)
        (poll tp (complete tc (pid, s.peer_id)
          (ps.foldl (fun st p => (ingest tIn p st).2) s))).2.actors
      = some a3 ∧ a3.busy = true ∧ a3.queue = []) := by
  obtain ⟨hp1, hp2, hp3, hp4, ⟨la, hp5⟩, hp6⟩ :=
    ingestAll_spec tIn ps s pid a hla hids hdl hcap
  set s1 := ps.foldl (fun st p => (ingest tIn p st).2) s with hs1
  have hnd1 : (s1.actors.map Prod.fst).Nodup := by
    rw [hp4]
    exact hnd
  have hla1 : lookupActor (pid, s.peer_id) s1.actors
      = some { a with queue := a.queue ++ ps, last_activity := la } := hp5
  obtain ⟨q, r, hq0⟩ : ∃ q r, a.queue ++ ps = q :: r := by
    cases hq0 : a.queue ++ ps with
    | nil => exact absurd (List.append_eq_nil.mp hq0).2 hps
    | cons q r => exact ⟨q, r, rfl⟩
  have hstep2 : complete tc (pid, s.peer_id) s1
      = { s1 with
          actors :=
            updateActor (pid, s.peer_id)
              (fun a0 => { a0 with busy := false, last_activity := tc }) s1.actors,
          inflight := eraseKey (pid, s.peer_id) s1.inflight } := by
    simp only [complete, hla1]
    rw [if_pos hbusy, hq0]
    rw [if_neg (by simp)]
  set s2 := complete tc (pid, s.peer_id) s1 with hs2
  set a2 : Actor :=
    { a with queue := a.queue ++ ps, busy := false, last_activity := tc } with ha2
  have hq2 : a2.queue = q :: r := hq0
  have hact2 : s2.actors = updateActor (pid, s.peer_id)
      (fun a0 => { a0 with busy := false, last_activity := tc }) s1.actors :=
    congrArg Plumber.actors hstep2
  have hla3 : lookupActor (pid, s.peer_id) s2.actors = some a2 := by
    rw [hact2, lookupActor_update, if_pos rfl, hla1]
    rfl
  have hnd2 : (s2.actors.map Prod.fst).Nodup := by
    rw [hact2, keys_updateActor]
    exact hnd1
  have hlag : lookupActor (pid, s.peer_id) (gc tp s2).actors = some a2 := by
    have hactg : (gc tp s2).actors = s2.actors.filter
        (fun ka => ka.2.busy || decide (tp ≤ ka.2.deadline)) := rfl
    rw [hactg, lookupActor_filter _ _ _ hnd2, hla3]
    have hcond : (a2.busy || decide (tp ≤ a2.deadline)) = true := by
      have hb2 : a2.busy = false := rfl
      have hd2 : a2.deadline = a.deadline := rfl
      rw [hb2, hd2, Bool.false_or, decide_eq_true_eq]
      exact htp
    simp [Option.bind, hcond]
  have hndg : ((gc tp s2).actors.map Prod.fst).Nodup :=
    List.Nodup.sublist ((List.filter_sublist _).map Prod.fst) hnd2
  have hready : readyActor tp a2 = true := by
    apply (readyActor_iff tp a2).mpr
    refine ⟨rfl, q, r, hq2, ?_⟩
    apply hall
    rw [hq0]
    exact List.mem_cons_self _ _
  have hmem_filter : ((pid, s.peer_id), a2) ∈
      (gc tp s2).actors.filter (fun ka => readyActor tp ka.2) :=
    List.mem_filter.mpr ⟨lookupActor_some_mem _ _ _ hlag, hready⟩
  have hex : (poll tp s2).1
      = ((gc tp s2).actors.filter (fun ka => readyActor tp ka.2)).filterMap
        (fun ka => (mergeQueue ka.2.queue).map (fun p => Execution.mk ka.1 p)) := rfl
  have hexe : (Execution.mk (pid, s.peer_id) (mergeParticles q r)) ∈ (poll tp s2).1 := by
    rw [hex]
    apply List.mem_filterMap.mpr
    refine ⟨_, hmem_filter, ?_⟩
    show (mergeQueue a2.queue).map (fun p => Execution.mk (pid, s.peer_id) p)
        = some (Execution.mk (pid, s.peer_id) (mergeParticles q r))
    rw [hq2]
    rfl
  have hkeys : ((poll tp s2).1.map Execution.key)
      = ((gc tp s2).actors.filter (fun ka => readyActor tp ka.2)).map Prod.fst := by
    rw [hex]
    apply execs_map_key
    intro ka hka
    exact (List.mem_filter.mp hka).2
  have hkmem : (pid, s.peer_id) ∈
      ((gc tp s2).actors.filter (fun ka => readyActor tp ka.2)).map Prod.fst :=
    (mem_filter_keys_iff _ _ _ hndg).mpr ⟨_, hlag, hready⟩
  refine ⟨?_, ?_, ?_⟩
  · rw [hkeys]
    have hndr : (((gc tp s2).actors.filter
        (fun ka => readyActor tp ka.2)).map Prod.fst).Nodup :=
      List.Nodup.sublist ((List.filter_sublist _).map Prod.fst) hndg
    have h1 := count_le_one_of_nodup _ hndr (pid, s.peer_id)
    have h2 := List.count_pos_iff.mpr hkmem
    omega
  · refine ⟨Execution.mk (pid, s.peer_id) (mergeParticles q r), hexe, rfl, ?_, ?_⟩
    · rw [hq0]
      rfl
    · intro front q0 hfq
      apply mergeQueue_data_last (a.queue ++ front) q0
      rw [List.append_assoc, ← hfq, hq0]
      rfl
  · have hact3 : (poll tp s2).2.actors
        = (gc tp s2).actors.map (fun ka => (ka.1,
            if readyActor tp ka.2 then { ka.2 with busy := true, queue := [] }
            else ka.2)) := rfl
    have hlk := lookupActor_mapSnd
      (fun ka => if readyActor tp ka.2 then { ka.2 with busy := true, queue := [] }
        else ka.2) (pid, s.peer_id) (gc tp s2).actors
    refine ⟨{ a2 with busy := true, queue := [] }, ?_, rfl, rfl⟩
    rw [hact3, hlk, hlag]
    simp only [Option.map_some']
    rw [if_pos hready]

/-- C3 witness: one re-ingest of the fixture particle (with new data `[2]`)
while the first run is in flight yields, after completion, exactly one
execution carrying the latest data. -/
theorem reingest_coalesces_to_single_execution_witness :
    (((poll 4 (complete 3 ("p1", "peer")
        ([particleFix2].foldl (fun st p => (ingest 2 p st).2) busyStateFix))).1.map
        Execution.key).count ("p1", "peer") = 1) ∧
    (∃ e, e ∈ (poll 4 (complete 3 ("p1", "peer")
        ([particleFix2].foldl (fun st p => (ingest 2 p st).2) busyStateFix))).1 ∧
      e.key = ("p1", "peer") ∧
      mergeQueue ([] ++ [particleFix2]) = some e.particle ∧
      (∀ front q0, [particleFix2] = front ++ [q0] → e.particle.data = q0.data)) ∧
    (∃ a3, lookupActor ("p1", "peer")
        (poll 4 (complete 3 ("p1", "peer")
          ([particleFix2].foldl (fun st p => (ingest 2 p st).2) busyStateFix))).2.actors
      = some a3 ∧ a3.busy = true ∧ a3.queue = []) :=
  reingest_coalesces_to_single_execution busyStateFix "p1"
    (Actor.mk 100 [] true 0) [particleFix2] 2 3 4
    (by decide) rfl rfl (by decide) (by decide) (by decide) (by decide)
    (by decide) (by decide)

end RustPeer
